import Mathlib

/-!
Verification of the two-pass delta classifier and dataset builders of the
CMV scraping pipeline (`1_cmv_scrape.py`), shallowly embedded in Lean 4.

The embedding follows the source:
* `pyLower`, `pyIn`, `pyStartsWith`, `splitOnceTail`, `pyStrip` model the
  Python string primitives `str.lower`, `in`, `str.startswith`,
  `s.split(sep, 1)[1]` and `str.strip` used by the script;
* `flair_is_delta_from_op` and `has_delta` are the marker detectors;
* `CommentNode` gathers the attributes the script reads from a raw comment,
  each `Option`-typed where the script tolerates absence, and `getBody`,
  `getAuthor`, `getParentFull` are the script's attribute coercions;
* `awardedIds` is pass 1 of `build_comments_csv` (the awarded-parent set,
  modelled as a duplicate-free list built in scan order);
* `emitRecord` builds one output row, `classifyThread` is the budget-free
  two-pass classification of one thread, `emitLoop`/`buildLoop` are the
  budgeted pass-2 loop and the outer submission loop with their `break`s;
* `keepSub` is the OP filter on the submissions CSV and `build_comments`
  the whole comment-dataset builder;
* `build_submissions_columns`/`build_submissions_rows` model the column set
  and row set of the submissions CSV written by `build_submissions_csv`.
-/

/-- Python `str.lower()` (ASCII case folding, which agrees with Python on
every character of the marker token set). -/
def pyLower (s : String) : String := String.mk (s.data.map Char.toLower)

/-- Does the list start with the first argument? (Python `str.startswith`). -/
def startsWithL : List Char → List Char → Bool
  | [], _ => true
  | _ :: _, [] => false
  | p :: ps, c :: cs => p = c && startsWithL ps cs

/-- `needle` occurs as a contiguous substring of `hay` (Python `needle in hay`). -/
def occursInL (needle : List Char) : List Char → Bool
  | [] => startsWithL needle []
  | c :: cs => startsWithL needle (c :: cs) || occursInL needle cs

def pyIn (needle hay : String) : Bool := occursInL needle.data hay.data

def pyStartsWith (s pre : String) : Bool := startsWithL pre.data s.data

/-- Everything after the first underscore: Python `s.split('_', 1)[1]`,
used only under a `startswith` guard ensuring an underscore is present. -/
def dropThruUnderscore : List Char → List Char
  | [] => []
  | c :: cs => if c = '_' then cs else dropThruUnderscore cs

def splitOnceTail (s : String) : String := String.mk (dropThruUnderscore s.data)

def isPySpace (c : Char) : Bool :=
  c = ' ' || c = '\t' || c = '\n' || c = '\x0d' || c = '\x0b' || c = '\x0c'

/-- Python `str.strip()`: remove leading and trailing whitespace. -/
def pyStrip (s : String) : String :=
  String.mk (((s.data.dropWhile isPySpace).reverse.dropWhile isPySpace).reverse)

/-- `flair_is_delta_from_op`: does a flair text mention a delta from OP? -/
def flair_is_delta_from_op (flair : Option String) : Bool :=
  match flair with
  | none => false
  | some f =>
    if f = "" then false
    else
      let t := pyLower (pyStrip f)
      pyIn "delta" t && pyIn "from op" t

/-- `DELTA_TOKENS`: the delta cue list of the script. -/
def DELTA_TOKENS : List String :=
  ["∆", "∆", "!delta", "delta awarded", "i award you a delta",
   "i award a delta", "i\x27m awarding a delta", "i am awarding a delta"]

/-- `has_delta`: does the text look like an OP awarding a delta? -/
def has_delta (text : Option String) : Bool :=
  match text with
  | none => false
  | some s =>
    if s = "" then false
    else
      let t := pyLower s
      DELTA_TOKENS.any (fun tok => pyIn tok t)

/-- The attributes of a raw comment that `build_comments_csv` reads.
`none` models a missing or `None` attribute. -/
structure CommentNode where
  id : Option String
  parent_id : Option String
  author : Option String
  body : Option String
  score : Option Int
  permalink : String
  created_utc : Option Rat
  depth : Option Nat
deriving DecidableEq

/-- `getattr(c, 'body', '') or ''`. -/
def getBody (c : CommentNode) : String :=
  match c.body with
  | none => ""
  | some s => s

/-- `str(getattr(c, 'author', None)) if getattr(c, 'author', None) else None`
(a falsy author — absent, `None` or empty — coerces to `none`). -/
def getAuthor (c : CommentNode) : Option String :=
  match c.author with
  | none => none
  | some a => if a = "" then none else some a

/-- `getattr(c, 'parent_id', '') or ''`. -/
def getParentFull (c : CommentNode) : String :=
  match c.parent_id with
  | none => ""
  | some p => p

/-- `is_op`: `(str(getattr(c, 'author', None)) == op) if getattr(...) else False`. -/
def isOpOf (op : String) (c : CommentNode) : Bool :=
  match getAuthor c with
  | none => false
  | some a => a = op

/-- `set.add`, on the list modelling the awarded set: no-op on a duplicate. -/
def addId (acc : List String) (x : String) : List String :=
  if x ∈ acc then acc else acc ++ [x]

/-- One step of pass 1 of `build_comments_csv`: an OP-authored comment whose
body has a delta cue and whose parent reference is a comment (`t1_` prefix)
adds the parent's bare id to the awarded set. -/
def awardedStep (op : String) (acc : List String) (c : CommentNode) : List String :=
  if getAuthor c = some op ∧ has_delta (some (getBody c)) = true then
    if pyStartsWith (getParentFull c) "t1_" = true then
      addId acc (splitOnceTail (getParentFull c))
    else acc
  else acc

/-- Pass 1 over the flattened comment sequence: `awarded_parent_ids`. -/
def awardedIds (op : String) (cs : List CommentNode) : List String :=
  cs.foldl (awardedStep op) []

/-- One output row of the comments CSV. -/
structure CommentRecord where
  comment_id : Option String
  post_id : String
  parent_comment_id : Option String
  score : Option Int
  author : Option String
  is_op : Bool
  delta_awarded : Bool
  body : String
  permalink : String
  created_utc : Option Rat
  depth : Option Nat
deriving DecidableEq

/-- `getattr(c, 'id', None) in awarded_parent_ids` (`None` is never a member). -/
def optMem (x : Option String) (l : List String) : Bool :=
  match x with
  | none => false
  | some s => decide (s ∈ l)

/-- The row `build_comments_csv` appends for one comment in pass 2. -/
def emitRecord (sid op : String) (aw : List String) (c : CommentNode) : CommentRecord :=
  { comment_id := c.id
    post_id := sid
    parent_comment_id :=
      if pyStartsWith (getParentFull c) "t1_" = true
      then some (splitOnceTail (getParentFull c)) else none
    score := c.score
    author := getAuthor c
    is_op := isOpOf op c
    delta_awarded := optMem c.id aw
    body := getBody c
    permalink := "https://reddit.com" ++ c.permalink
    created_utc := c.created_utc
    depth := c.depth }

/-- The budget-free two-pass Delta Classifier for one thread: pass 1 over the
whole flattened sequence, then one record per node. -/
def classifyThread (sid op : String) (cs : List CommentNode) : List CommentRecord :=
  cs.map (emitRecord sid op (awardedIds op cs))

/-- Pass 2 of `build_comments_csv` with the global row budget: the inner
`for` loop with its `if total >= max_comments: break`.  Returns the emitted
rows and the updated running total. -/
def emitLoop (sid op : String) (aw : List String) (maxC : Nat) :
    List CommentNode → Nat → List CommentRecord × Nat
  | [], total => ([], total)
  | c :: cs, total =>
    if maxC ≤ total then ([], total)
    else
      let p := emitLoop sid op aw maxC cs (total + 1)
      (emitRecord sid op aw c :: p.1, p.2)

/-- One row of the submissions CSV as `build_comments_csv` reads it back. -/
structure SubRow where
  id : String
  author : Option String
deriving DecidableEq

/-- The thread filter of `build_comments_csv`:
`subs['author'].notna() & (subs['author'].str.lower() != '[deleted]')`. -/
def keepSub (r : SubRow) : Bool :=
  match r.author with
  | none => false
  | some a => decide (pyLower a ≠ "[deleted]")

/-- `op = str(srow['author'])` (the filter guarantees a present author). -/
def opOfRow (r : SubRow) : String :=
  match r.author with
  | none => ""
  | some a => a

/-- The outer submission loop of `build_comments_csv`: per thread, pass 1
over the full comment list, budgeted pass 2, and the outer
`if total >= max_comments: break`.  Returns the accumulated rows and the
ids of the threads actually scanned. -/
def buildLoop (fetch : String → List CommentNode) (maxC : Nat) :
    List SubRow → Nat → List CommentRecord × List String
  | [], _ => ([], [])
  | r :: rs, total =>
    let op := opOfRow r
    let cs := fetch r.id
    let p := emitLoop r.id op (awardedIds op cs) maxC cs total
    if maxC ≤ p.2 then (p.1, [r.id])
    else
      let q := buildLoop fetch maxC rs p.2
      (p.1 ++ q.1, r.id :: q.2)

/-- `build_comments_csv`: filter out threads without a usable OP, keep the
first `nSubs`, then run the budgeted scan loop.  `fetch` stands for the
external `reddit.submission(...).comments.list()` capability. -/
def build_comments (fetch : String → List CommentNode) (nSubs maxC : Nat)
    (subs : List SubRow) : List CommentRecord × List String :=
  buildLoop fetch maxC ((subs.filter keepSub).take nSubs) 0

/-- What an unbounded-budget run emits: every kept thread classified in full,
in thread-scan order. -/
def unboundedRows (fetch : String → List CommentNode) (rs : List SubRow) :
    List CommentRecord :=
  (rs.map (fun r => classifyThread r.id (opOfRow r) (fetch r.id))).flatten

/-- The attributes `fetch_top_submissions` reads from one raw thread item. -/
structure SubmissionItem where
  id : Option String
  title : String
  author : Option String
  permalink : String
  url : Option String
  created_utc : Option Rat
  score : Option Int
  num_comments : Option Nat
  upvote_ratio : Option Rat
  link_flair_text : Option String
  total_awards_received : Option Nat
deriving DecidableEq

/-- The fixed column selection of `build_submissions_csv` (`cols = [...]`). -/
def SUBMISSION_COLUMNS : List String :=
  ["id", "title", "author", "permalink", "url", "created_utc", "score",
   "num_comments", "upvote_ratio", "link_flair_text", "has_delta_from_op",
   "total_awards_received"]

/-- The columns of the CSV `build_submissions_csv` writes: on an empty fetch
the early-return branch writes the empty dataframe as is (it has no columns);
otherwise the fixed `cols` selection is written. -/
def build_submissions_columns (items : List SubmissionItem) : List String :=
  if items = [] then [] else SUBMISSION_COLUMNS

/-- `str(getattr(s, 'author', None)) if getattr(s, 'author', None) else None`. -/
def subAuthor (s : SubmissionItem) : Option String :=
  match s.author with
  | none => none
  | some a => if a = "" then none else some a

/-- One written row of the submissions CSV (the fields a claim can inspect). -/
structure SubmissionRow where
  id : Option String
  author : Option String
  link_flair_text : Option String
  has_delta_from_op : Bool
deriving DecidableEq

/-- The rows of the CSV `build_submissions_csv` writes: empty on an empty
fetch, else the flair flag is derived and rows without an author dropped. -/
def build_submissions_rows (items : List SubmissionItem) : List SubmissionRow :=
  if items = [] then []
  else
    (items.filter (fun s => (subAuthor s).isSome)).map (fun s =>
      { id := s.id
        author := subAuthor s
        link_flair_text := s.link_flair_text
        has_delta_from_op := flair_is_delta_from_op s.link_flair_text })

/-!  ## Helper lemmas  -/

/-- A node's pass-1 contribution: it adds `x` to the awarded set iff it is
OP-authored, its body has a delta cue, and its parent reference is the
comment reference of `x`. -/
def contrib (op : String) (c : CommentNode) (x : String) : Prop :=
  getAuthor c = some op ∧ has_delta (some (getBody c)) = true ∧
    pyStartsWith (getParentFull c) "t1_" = true ∧
    splitOnceTail (getParentFull c) = x

instance (op : String) (c : CommentNode) (x : String) : Decidable (contrib op c x) := by
  unfold contrib; infer_instance

theorem mem_addId {acc : List String} {x y : String} :
    y ∈ addId acc x ↔ y ∈ acc ∨ y = x := by
  unfold addId
  by_cases h : x ∈ acc
  · simp only [if_pos h]
    constructor
    · exact Or.inl
    · rintro (hy | rfl)
      · exact hy
      · exact h
  · simp [if_neg h]

theorem mem_awardedStep {op : String} {acc : List String} {c : CommentNode}
    {x : String} : x ∈ awardedStep op acc c ↔ x ∈ acc ∨ contrib op c x := by
  unfold awardedStep contrib
  by_cases h1 : getAuthor c = some op ∧ has_delta (some (getBody c)) = true
  · by_cases h2 : pyStartsWith (getParentFull c) "t1_" = true
    · simp only [if_pos h1, if_pos h2, mem_addId]
      constructor
      · rintro (hx | rfl)
        · exact Or.inl hx
        · exact Or.inr ⟨h1.1, h1.2, h2, rfl⟩
      · rintro (hx | ⟨-, -, -, rfl⟩)
        · exact Or.inl hx
        · exact Or.inr rfl
    · simp only [if_pos h1, if_neg h2]
      constructor
      · exact Or.inl
      · rintro (hx | ⟨-, -, hc, -⟩)
        · exact hx
        · exact absurd hc h2
  · simp only [if_neg h1]
    constructor
    · exact Or.inl
    · rintro (hx | ⟨ha, hb, -, -⟩)
      · exact hx
      · exact absurd ⟨ha, hb⟩ h1

theorem mem_foldl_awardedStep (op : String) (cs : List CommentNode) :
    ∀ (acc : List String) (x : String),
      x ∈ cs.foldl (awardedStep op) acc ↔ x ∈ acc ∨ ∃ c ∈ cs, contrib op c x := by
  induction cs with
  | nil => intro acc x; simp
  | cons c cs ih =>
    intro acc x
    simp only [List.foldl_cons, ih, mem_awardedStep, List.mem_cons]
    constructor
    · rintro ((hx | hc) | ⟨d, hd, hdc⟩)
      · exact Or.inl hx
      · exact Or.inr ⟨c, Or.inl rfl, hc⟩
      · exact Or.inr ⟨d, Or.inr hd, hdc⟩
    · rintro (hx | ⟨d, (rfl | hd), hdc⟩)
      · exact Or.inl (Or.inl hx)
      · exact Or.inl (Or.inr hdc)
      · exact Or.inr ⟨d, hd, hdc⟩

/-- Membership in the awarded set: exactly the parents named by some
OP-authored delta-cue comment whose parent reference is a comment. -/
theorem mem_awardedIds {op : String} {cs : List CommentNode} {x : String} :
    x ∈ awardedIds op cs ↔ ∃ c ∈ cs, contrib op c x := by
  unfold awardedIds
  rw [mem_foldl_awardedStep]
  simp

theorem addId_nodup {acc : List String} {x : String} (h : acc.Nodup) :
    (addId acc x).Nodup := by
  unfold addId
  by_cases hx : x ∈ acc
  · simpa [if_pos hx]
  · simp only [if_neg hx, List.nodup_append]
    refine ⟨h, List.nodup_singleton x, ?_⟩
    intro y hy hy1
    rw [List.mem_singleton] at hy1
    exact hx (hy1 ▸ hy)

theorem awardedStep_nodup {op : String} {acc : List String} {c : CommentNode}
    (h : acc.Nodup) : (awardedStep op acc c).Nodup := by
  unfold awardedStep
  split
  · split
    · exact addId_nodup h
    · exact h
  · exact h

theorem foldl_awardedStep_nodup (op : String) (cs : List CommentNode) :
    ∀ acc : List String, acc.Nodup → (cs.foldl (awardedStep op) acc).Nodup := by
  induction cs with
  | nil => intro acc h; simpa
  | cons c cs ih => intro acc h; exact ih _ (awardedStep_nodup h)

/-- The awarded set never holds an identifier twice. -/
theorem awardedIds_nodup (op : String) (cs : List CommentNode) :
    (awardedIds op cs).Nodup :=
  foldl_awardedStep_nodup op cs [] List.nodup_nil

/-- A node that contributes nothing leaves the awarded set of the
surrounding sequence untouched. -/
theorem awardedIds_skip {op : String} {d : CommentNode}
    (hd : ∀ x, ¬ contrib op d x) (cs₁ cs₂ : List CommentNode) :
    awardedIds op (cs₁ ++ d :: cs₂) = awardedIds op (cs₁ ++ cs₂) := by
  unfold awardedIds
  rw [List.foldl_append, List.foldl_append, List.foldl_cons]
  have hstep : awardedStep op (cs₁.foldl (awardedStep op) []) d
      = cs₁.foldl (awardedStep op) [] := by
    unfold awardedStep
    split
    · split
      · rename_i h1 h2
        exact absurd ⟨h1.1, h1.2, h2, rfl⟩ (hd _)
      · rfl
    · rfl
  rw [hstep]

theorem startsWithL_iff (p : List Char) :
    ∀ l, startsWithL p l = true ↔ ∃ rest, l = p ++ rest := by
  induction p with
  | nil =>
    intro l
    simp [startsWithL]
  | cons a as ih =>
    intro l
    cases l with
    | nil =>
      simp [startsWithL]
    | cons b bs =>
      simp only [startsWithL, Bool.and_eq_true, decide_eq_true_eq, ih]
      constructor
      · rintro ⟨rfl, rest, rfl⟩
        exact ⟨rest, rfl⟩
      · rintro ⟨rest, heq⟩
        rw [List.cons_append] at heq
        obtain ⟨rfl, rfl⟩ := List.cons.inj heq
        exact ⟨rfl, rest, rfl⟩

theorem dropThruUnderscore_t1 (rest : List Char) :
    dropThruUnderscore ('t' :: '1' :: '_' :: rest) = rest := by
  simp [dropThruUnderscore]

theorem string_eq_of_data {a b : String} (h : a.data = b.data) : a = b := by
  cases a; cases b; exact congrArg String.mk h

/-- A parent reference is a comment reference naming `i` exactly when it is
the string `"t1_" ++ i`. -/
theorem commentRef_iff (pf i : String) :
    (pyStartsWith pf "t1_" = true ∧ splitOnceTail pf = i) ↔ pf = "t1_" ++ i := by
  constructor
  · rintro ⟨hs, hi⟩
    rw [pyStartsWith] at hs
    obtain ⟨rest, hrest⟩ := (startsWithL_iff _ _).1 hs
    have hdata : pf.data = 't' :: '1' :: '_' :: rest := hrest
    have hmk : splitOnceTail pf = String.mk rest := by
      rw [splitOnceTail, hdata, dropThruUnderscore_t1]
    have hidata : i.data = rest := by
      rw [← hi, hmk]
    apply string_eq_of_data
    rw [String.data_append, hdata, hidata]
    rfl
  · rintro rfl
    have hdata : ("t1_" ++ i).data = 't' :: '1' :: '_' :: i.data := by
      rw [String.data_append]
      rfl
    constructor
    · rw [pyStartsWith, hdata]
      exact (startsWithL_iff _ _).2 ⟨i.data, rfl⟩
    · rw [splitOnceTail, hdata, dropThruUnderscore_t1]

/-- The budgeted pass-2 loop emits exactly the first `maxC - total` records
of the thread and advances the running total by the number emitted. -/
theorem emitLoop_eq (sid op : String) (aw : List String) (maxC : Nat) :
    ∀ (cs : List CommentNode) (total : Nat),
      emitLoop sid op aw maxC cs total
        = ((cs.take (maxC - total)).map (emitRecord sid op aw),
           total + min (maxC - total) cs.length) := by
  intro cs
  induction cs with
  | nil =>
    intro total
    simp [emitLoop]
  | cons c cs ih =>
    intro total
    by_cases h : maxC ≤ total
    · have h0 : maxC - total = 0 := Nat.sub_eq_zero_of_le h
      simp [emitLoop, if_pos h, h0]
    · have h2 : maxC - total = (maxC - (total + 1)) + 1 := by omega
      simp only [emitLoop, if_neg h, ih (total + 1), h2, List.take_succ_cons,
        List.map_cons, List.length_cons, Prod.mk.injEq]
      exact ⟨trivial, by omega⟩

theorem classifyThread_take (sid op : String) (cs : List CommentNode) (n : Nat) :
    (cs.take n).map (emitRecord sid op (awardedIds op cs))
      = (classifyThread sid op cs).take n := by
  rw [classifyThread, List.map_take]

/-- The rows the scan loop accumulates are exactly the length-`maxC - total`
prefix of what an unbounded-budget run over the same threads would emit. -/
theorem buildLoop_rows (fetch : String → List CommentNode) (maxC : Nat) :
    ∀ (rs : List SubRow) (total : Nat),
      (buildLoop fetch maxC rs total).1 = (unboundedRows fetch rs).take (maxC - total) := by
  intro rs
  induction rs with
  | nil =>
    intro total
    simp [buildLoop, unboundedRows]
  | cons r rs ih =>
    intro total
    have hunf : unboundedRows fetch (r :: rs)
        = classifyThread r.id (opOfRow r) (fetch r.id) ++ unboundedRows fetch rs := by
      simp [unboundedRows]
    have hlen : (classifyThread r.id (opOfRow r) (fetch r.id)).length
        = (fetch r.id).length := by
      simp [classifyThread]
    rw [buildLoop]
    simp only [emitLoop_eq, classifyThread_take, hunf]
    rcases le_total (maxC - total) (fetch r.id).length with hc | hc
    · rw [min_eq_left hc, if_pos (by omega)]
      have hm : maxC - total ≤ (classifyThread r.id (opOfRow r) (fetch r.id)).length := by
        rw [hlen]; exact hc
      rw [List.take_append_of_le_length hm]
    · rw [min_eq_right hc]
      by_cases h : maxC ≤ total + (fetch r.id).length
      · rw [if_pos h]
        have hm : maxC - total ≤ (classifyThread r.id (opOfRow r) (fetch r.id)).length := by
          rw [hlen]; omega
        rw [List.take_append_of_le_length hm]
      · rw [if_neg h]
        simp only [ih]
        have htk : (classifyThread r.id (opOfRow r) (fetch r.id)).take (maxC - total)
            = classifyThread r.id (opOfRow r) (fetch r.id) :=
          List.take_of_length_le (by rw [hlen]; omega)
        rw [List.take_append_eq_append_take, htk, hlen, Nat.sub_sub]

/-- Once the budget is exhausted, scanning one more thread emits no rows and
stops right after that thread. -/
theorem buildLoop_exhausted (fetch : String → List CommentNode) (maxC : Nat)
    (r : SubRow) (rs : List SubRow) (total : Nat) (h : maxC ≤ total) :
    buildLoop fetch maxC (r :: rs) total = ([], [r.id]) := by
  rw [buildLoop]
  simp only [emitLoop_eq]
  have h0 : maxC - total = 0 := Nat.sub_eq_zero_of_le h
  rw [h0, min_eq_left (Nat.zero_le _)]
  simp only [List.take_zero, List.map_nil, Nat.add_zero]
  rw [if_pos h]

/-- Every accumulated row carries the id of one of the scanned submissions. -/
theorem buildLoop_post_id (fetch : String → List CommentNode) (maxC : Nat) :
    ∀ (rs : List SubRow) (total : Nat) (rec : CommentRecord),
      rec ∈ (buildLoop fetch maxC rs total).1 → ∃ r ∈ rs, rec.post_id = r.id := by
  intro rs
  induction rs with
  | nil =>
    intro total rec h
    simp [buildLoop] at h
  | cons r rs ih =>
    intro total rec h
    rw [buildLoop] at h
    simp only [emitLoop_eq] at h
    have hfirst : ∀ rec' ∈ ((fetch r.id).take (maxC - total)).map
        (emitRecord r.id (opOfRow r) (awardedIds (opOfRow r) (fetch r.id))),
        rec'.post_id = r.id := by
      intro rec' h'
      obtain ⟨c, -, rfl⟩ := List.mem_map.1 h'
      rfl
    split at h
    · exact ⟨r, List.mem_cons_self r rs, hfirst rec h⟩
    · rcases List.mem_append.1 h with h1 | h2
      · exact ⟨r, List.mem_cons_self r rs, hfirst rec h1⟩
      · obtain ⟨r', hr', hp⟩ := ih _ rec h2
        exact ⟨r', List.mem_cons_of_mem r hr', hp⟩

theorem classifyThread_length (sid op : String) (cs : List CommentNode) :
    (classifyThread sid op cs).length = cs.length := by
  simp [classifyThread]

theorem classifyThread_get (sid op : String) (cs : List CommentNode)
    (k : Nat) (hk : k < cs.length) (hk' : k < (classifyThread sid op cs).length) :
    (classifyThread sid op cs).get ⟨k, hk'⟩
      = emitRecord sid op (awardedIds op cs) (cs.get ⟨k, hk⟩) := by
  simp [classifyThread]

/-- Example nodes: a root-level reply by bob and an OP delta acknowledgment
by alice pointing at it. -/
def exTarget : CommentNode :=
  { id := some "c1", parent_id := some "t3_s1", author := some "bob",
    body := some "I disagree", score := some 1, permalink := "/p1",
    created_utc := none, depth := some 0 }

def exAck : CommentNode :=
  { id := some "c2", parent_id := some "t1_c1", author := some "alice",
    body := some "∆ you changed my mind", score := some 2, permalink := "/p2",
    created_utc := none, depth := some 1 }

/-- C1: an emitted record for comment `C` has `delta_awarded = true` iff some
comment `D` of the same flattened thread has a parent reference denoting
`C`'s identifier (`"t1_" ++ i`), is authored by the thread's OP, and has a
body satisfying the marker detector. -/
theorem delta_awarded_iff_op_ack (sid op : String) (cs : List CommentNode)
    (k : Nat) (hk : k < cs.length) (i : String)
    (hid : (cs.get ⟨k, hk⟩).id = some i) :
    ((classifyThread sid op cs).get
        ⟨k, by simpa [classifyThread] using hk⟩).delta_awarded = true
      ↔ ∃ d ∈ cs, getAuthor d = some op ∧ has_delta (some (getBody d)) = true
          ∧ getParentFull d = "t1_" ++ i := by
  rw [classifyThread_get sid op cs k hk]
  show optMem (cs.get ⟨k, hk⟩).id (awardedIds op cs) = true ↔ _
  rw [hid]
  show decide (i ∈ awardedIds op cs) = true ↔ _
  rw [decide_eq_true_eq, mem_awardedIds]
  constructor
  · rintro ⟨d, hd, hc⟩
    obtain ⟨ha, hb, hs, hsp⟩ := hc
    exact ⟨d, hd, ha, hb, (commentRef_iff _ _).1 ⟨hs, hsp⟩⟩
  · rintro ⟨d, hd, ha, hb, hpf⟩
    obtain ⟨hs, hsp⟩ := (commentRef_iff _ _).2 hpf
    exact ⟨d, hd, ha, hb, hs, hsp⟩

/-- C1 witness: in the two-comment example thread, bob's comment gets
`delta_awarded = true` because alice's reply to it carries the marker. -/
theorem delta_awarded_iff_op_ack_witness :
    ((classifyThread "s1" "alice" [exTarget, exAck]).get
        ⟨0, by simp [classifyThread]⟩).delta_awarded = true :=
  (delta_awarded_iff_op_ack "s1" "alice" [exTarget, exAck] 0 (by decide) "c1"
      (by decide)).2
    ⟨exAck, by decide, by decide, by decide, by decide⟩

theorem delta_get (sid op : String) (cs : List CommentNode) (k : Nat)
    (hk : k < cs.length) (hk' : k < (classifyThread sid op cs).length) :
    ((classifyThread sid op cs).get ⟨k, hk'⟩).delta_awarded
      = optMem (cs.get ⟨k, hk⟩).id (awardedIds op cs) := by
  simp [classifyThread, emitRecord]

/-- Replacing the node at `k` by one with the same parent reference keeps the
membership of `i` in the awarded set, provided that parent reference does not
denote `i` itself. -/
theorem mem_awardedIds_set_iff (op : String) (cs : List CommentNode) (k : Nat)
    (hk : k < cs.length) (c' : CommentNode)
    (hpar : getParentFull c' = getParentFull (cs.get ⟨k, hk⟩)) (i : String)
    (hns : ¬(pyStartsWith (getParentFull (cs.get ⟨k, hk⟩)) "t1_" = true ∧
        splitOnceTail (getParentFull (cs.get ⟨k, hk⟩)) = i)) :
    (i ∈ awardedIds op (cs.set k c') ↔ i ∈ awardedIds op cs) := by
  rw [mem_awardedIds, mem_awardedIds]
  constructor
  · rintro ⟨d, hd, hcon⟩
    obtain ⟨⟨j, hj⟩, hdj⟩ := List.mem_iff_get.1 hd
    by_cases hjk : j = k
    · exfalso
      subst hjk
      have hdc : d = c' := by
        rw [← hdj]
        simp [List.get_eq_getElem, List.getElem_set_self]
      subst hdc
      obtain ⟨-, -, hs, hsp⟩ := hcon
      rw [hpar] at hs hsp
      exact hns ⟨hs, hsp⟩
    · have hj' : j < cs.length := by simpa using hj
      have hdc : d = cs.get ⟨j, hj'⟩ := by
        rw [← hdj]
        simp [List.get_eq_getElem, List.getElem_set_ne (fun h => hjk h.symm)]
      exact ⟨cs.get ⟨j, hj'⟩, List.get_mem cs j hj', hdc ▸ hcon⟩
  · rintro ⟨d, hd, hcon⟩
    obtain ⟨⟨j, hj⟩, hdj⟩ := List.mem_iff_get.1 hd
    by_cases hjk : j = k
    · exfalso
      subst hjk
      have hdc : d = cs.get ⟨j, hj⟩ := hdj.symm
      subst hdc
      obtain ⟨-, -, hs, hsp⟩ := hcon
      exact hns ⟨hs, hsp⟩
    · have hj2 : j < (cs.set k c').length := by simpa using hj
      have hget : (cs.set k c').get ⟨j, hj2⟩ = cs.get ⟨j, hj⟩ := by
        simp [List.get_eq_getElem, List.getElem_set_ne (fun h => hjk h.symm)]
      refine ⟨(cs.set k c').get ⟨j, hj2⟩, List.get_mem _ j hj2, ?_⟩
      rw [hget, hdj]
      exact hcon

/-- C2: the `delta_awarded` value emitted for a node does not depend on that
node's own body or author: replacing them by anything leaves the node's flag
unchanged.  The hypothesis — the node's parent reference is not a comment
reference to the node's own identifier — is the rooted-tree shape of a
thread (§3 of the spec): a comment in a tree is never its own parent.  In
particular, a comment never awards itself a delta. -/
theorem delta_awarded_ignores_own_fields (sid op : String) (cs : List CommentNode)
    (k : Nat) (hk : k < cs.length) (b a : Option String)
    (hself : ∀ i, (cs.get ⟨k, hk⟩).id = some i →
      ¬(pyStartsWith (getParentFull (cs.get ⟨k, hk⟩)) "t1_" = true ∧
          splitOnceTail (getParentFull (cs.get ⟨k, hk⟩)) = i)) :
    ((classifyThread sid op
          (cs.set k { cs.get ⟨k, hk⟩ with body := b, author := a })).get
        ⟨k, by rw [classifyThread_length, List.length_set]; exact hk⟩).delta_awarded
      = ((classifyThread sid op cs).get
        ⟨k, by rw [classifyThread_length]; exact hk⟩).delta_awarded := by
  have hset : k < (cs.set k { cs.get ⟨k, hk⟩ with body := b, author := a }).length := by
    rw [List.length_set]; exact hk
  rw [delta_get sid op _ k hset, delta_get sid op cs k hk]
  have hck : (cs.set k { cs.get ⟨k, hk⟩ with body := b, author := a }).get ⟨k, hset⟩
      = { cs.get ⟨k, hk⟩ with body := b, author := a } := by
    simp [List.get_eq_getElem, List.getElem_set_self]
  rw [hck]
  have hid : ({ cs.get ⟨k, hk⟩ with body := b, author := a } : CommentNode).id
      = (cs.get ⟨k, hk⟩).id := rfl
  rw [hid]
  cases hcid : (cs.get ⟨k, hk⟩).id with
  | none => rfl
  | some i =>
    show decide _ = decide _
    rw [decide_eq_decide]
    exact mem_awardedIds_set_iff op cs k hk
      { cs.get ⟨k, hk⟩ with body := b, author := a } rfl i (hself i hcid)

/-- C2 witness: changing the body and author of the root-reply node in the
example thread leaves its `delta_awarded` value unchanged. -/
theorem delta_awarded_ignores_own_fields_witness :
    ((classifyThread "s1" "alice"
          ([exTarget, exAck].set 0
            { [exTarget, exAck].get ⟨0, by decide⟩ with
                body := some "∆ self praise", author := some "alice" })).get
        ⟨0, by rw [classifyThread_length, List.length_set]; decide⟩).delta_awarded
      = ((classifyThread "s1" "alice" [exTarget, exAck]).get
        ⟨0, by rw [classifyThread_length]; decide⟩).delta_awarded :=
  delta_awarded_ignores_own_fields "s1" "alice" [exTarget, exAck] 0 (by decide)
    (some "∆ self praise") (some "alice") (by decide)

/-- C4: the unit facts of the Marker Detector: `has_delta` on absent, empty,
phrase, symbol and upper-case inputs, and `flair_is_delta_from_op` on absent
input, a full "delta from OP" label, and a label missing "from OP". -/
theorem marker_detector_unit_facts :
    has_delta none = false
    ∧ has_delta (some "") = false
    ∧ has_delta (some "I award you a delta") = true
    ∧ has_delta (some "∆") = true
    ∧ has_delta (some "DELTA AWARDED") = true
    ∧ flair_is_delta_from_op none = false
    ∧ flair_is_delta_from_op (some "Δ Delta from OP") = true
    ∧ flair_is_delta_from_op (some "Delta") = false := by
  decide

/-- A comment by "alice" (lower case) with a marker body, replying to `p`. -/
def exCaseNode : CommentNode :=
  { id := some "c3", parent_id := some "t1_p", author := some "alice",
    body := some "∆ great point", score := some 3, permalink := "/p3",
    created_utc := none, depth := some 2 }

/-- C5: pass 1 propagates a parent id only for comments whose coerced author
equals the OP handle exactly (case-sensitively): every member of the awarded
set is witnessed by such a comment, and a comment whose author differs from
the OP handle in any way contributes nothing, marker body or not. -/
theorem op_author_exact_match (op x : String) (cs cs₁ cs₂ : List CommentNode)
    (d : CommentNode) (hne : getAuthor d ≠ some op) :
    (x ∈ awardedIds op cs →
      ∃ c ∈ cs, getAuthor c = some op ∧ has_delta (some (getBody c)) = true
        ∧ pyStartsWith (getParentFull c) "t1_" = true
        ∧ splitOnceTail (getParentFull c) = x)
    ∧ awardedIds op (cs₁ ++ d :: cs₂) = awardedIds op (cs₁ ++ cs₂) := by
  constructor
  · intro hx
    obtain ⟨c, hc, hcon⟩ := mem_awardedIds.1 hx
    obtain ⟨ha, hb, hs, hsp⟩ := hcon
    exact ⟨c, hc, ha, hb, hs, hsp⟩
  · refine awardedIds_skip ?_ cs₁ cs₂
    intro y hy
    exact hne hy.1

/-- C5 witness: with OP handle "Alice", a marker comment authored "alice"
(differing only in letter case) propagates nothing. -/
theorem op_author_exact_match_witness :
    (("p" ∈ awardedIds "Alice" [exCaseNode] →
      ∃ c ∈ [exCaseNode], getAuthor c = some "Alice"
        ∧ has_delta (some (getBody c)) = true
        ∧ pyStartsWith (getParentFull c) "t1_" = true
        ∧ splitOnceTail (getParentFull c) = "p")
    ∧ awardedIds "Alice" ([] ++ exCaseNode :: []) = awardedIds "Alice" ([] ++ [])) :=
  op_author_exact_match "Alice" "p" [exCaseNode] [] [] exCaseNode (by decide)

/-- A comment with an absent author that is the target of alice's
acknowledgment `exAck`. -/
def exOrphan : CommentNode :=
  { id := some "c1", parent_id := some "t3_s1", author := none,
    body := some "my point stands", score := some 0, permalink := "/p0",
    created_utc := none, depth := some 0 }

/-- C6: a node with an absent author still yields a row (one record per
node), its `is_op` flag is false, and if some OP marker comment names it as
parent it still gets `delta_awarded = true`. -/
theorem absent_author_still_target (sid op : String) (cs : List CommentNode)
    (k : Nat) (hk : k < cs.length) (hauth : (cs.get ⟨k, hk⟩).author = none) :
    (classifyThread sid op cs).length = cs.length
    ∧ ((classifyThread sid op cs).get
        ⟨k, by rw [classifyThread_length]; exact hk⟩).is_op = false
    ∧ ∀ i, (cs.get ⟨k, hk⟩).id = some i →
        (∃ d ∈ cs, getAuthor d = some op ∧ has_delta (some (getBody d)) = true
          ∧ getParentFull d = "t1_" ++ i) →
        ((classifyThread sid op cs).get
          ⟨k, by rw [classifyThread_length]; exact hk⟩).delta_awarded = true := by
  have hga : getAuthor (cs.get ⟨k, hk⟩) = none := by
    unfold getAuthor
    rw [hauth]
  refine ⟨classifyThread_length sid op cs, ?_, ?_⟩
  · have hk' : k < (classifyThread sid op cs).length := by
      rw [classifyThread_length]; exact hk
    rw [classifyThread_get sid op cs k hk hk']
    show isOpOf op (cs.get ⟨k, hk⟩) = false
    rw [isOpOf, hga]
  · intro i hid hex
    rw [delta_get sid op cs k hk, hid]
    show decide _ = true
    rw [decide_eq_true_eq, mem_awardedIds]
    obtain ⟨d, hd, ha, hb, hpf⟩ := hex
    obtain ⟨hs, hsp⟩ := (commentRef_iff _ _).2 hpf
    exact ⟨d, hd, ha, hb, hs, hsp⟩

/-- C6 witness: in the thread `[exOrphan, exAck]` with OP "alice", the
author-less first node is emitted with `is_op = false` and
`delta_awarded = true`. -/
theorem absent_author_still_target_witness :
    ((classifyThread "s1" "alice" [exOrphan, exAck]).get
        ⟨0, by rw [classifyThread_length]; decide⟩).is_op = false
    ∧ ((classifyThread "s1" "alice" [exOrphan, exAck]).get
        ⟨0, by rw [classifyThread_length]; decide⟩).delta_awarded = true := by
  have h := absent_author_still_target "s1" "alice" [exOrphan, exAck] 0
    (by decide) (by decide)
  exact ⟨h.2.1, h.2.2 "c1" (by decide)
    ⟨exAck, by decide, by decide, by decide, by decide⟩⟩

/-- A marker comment with a missing author (would propagate if authored). -/
def exNoAuthor : CommentNode :=
  { id := some "c4", parent_id := some "t1_c9", author := none,
    body := some "!delta", score := none, permalink := "/p4",
    created_utc := none, depth := some 1 }

/-- An OP marker comment whose parent is the thread root. -/
def exRootAck : CommentNode :=
  { id := some "c5", parent_id := some "t3_s1", author := some "alice",
    body := some "delta awarded", score := none, permalink := "/p5",
    created_utc := none, depth := some 0 }

/-- C7: degenerate nodes never derail classification: a node with an absent
author or body contributes nothing to the awarded set, an OP marker comment
whose parent reference is the thread root or malformed (no `t1_` shape) adds
nothing, the rest of the thread classifies as if the node's effect were
absent (the awarded set is unchanged), and the awarded set never holds an
identifier twice. -/
theorem degenerate_nodes_harmless (op : String) (cs cs₁ cs₂ : List CommentNode)
    (d e : CommentNode) (hde : d.author = none ∨ d.body = none)
    (he : pyStartsWith (getParentFull e) "t1_" = false) :
    awardedIds op (cs₁ ++ d :: cs₂) = awardedIds op (cs₁ ++ cs₂)
    ∧ awardedIds op (cs₁ ++ e :: cs₂) = awardedIds op (cs₁ ++ cs₂)
    ∧ (awardedIds op cs).Nodup := by
  refine ⟨?_, ?_, awardedIds_nodup op cs⟩
  · refine awardedIds_skip ?_ cs₁ cs₂
    intro y hy
    unfold contrib at hy
    rcases hde with h | h
    · have hga : getAuthor d = none := by
        unfold getAuthor
        rw [h]
      rw [hga] at hy
      exact Option.noConfusion hy.1
    · have hgb : getBody d = "" := by
        unfold getBody
        rw [h]
      rw [hgb] at hy
      have hfalse : has_delta (some "") = false := by decide
      rw [hfalse] at hy
      exact Bool.noConfusion hy.2.1
  · refine awardedIds_skip ?_ cs₁ cs₂
    intro y hy
    unfold contrib at hy
    rw [he] at hy
    exact Bool.noConfusion hy.2.2.1

/-- C7 witness: an author-less marker node and a root-directed OP marker
node each leave the awarded set unchanged, and the awarded set of a thread
where OP acknowledges the same parent twice holds that parent once. -/
theorem degenerate_nodes_harmless_witness :
    awardedIds "alice" ([] ++ exNoAuthor :: []) = awardedIds "alice" ([] ++ [])
    ∧ awardedIds "alice" ([] ++ exRootAck :: []) = awardedIds "alice" ([] ++ [])
    ∧ (awardedIds "alice" [exAck, exAck]).Nodup :=
  degenerate_nodes_harmless "alice" [exAck, exAck] [] [] exNoAuthor exRootAck
    (by decide) (by decide)

/-- C8: a thread record whose OP handle is absent or the removed-account
sentinel is filtered out before scanning, so no comment row is ever emitted
for such a thread. -/
theorem filtered_threads_emit_nothing (fetch : String → List CommentNode)
    (nSubs maxC : Nat) (subs : List SubRow) (x : String)
    (hx : ∀ r ∈ subs, r.id = x → r.author = none ∨ r.author = some "[deleted]") :
    ∀ rec ∈ (build_comments fetch nSubs maxC subs).1, rec.post_id ≠ x := by
  intro rec hrec hcontra
  obtain ⟨r, hr, hpid⟩ := buildLoop_post_id fetch maxC _ 0 rec hrec
  have hr2 : r ∈ subs.filter keepSub := List.mem_of_mem_take hr
  have hr3 : r ∈ subs := (List.mem_filter.1 hr2).1
  have hkeep : keepSub r = true := (List.mem_filter.1 hr2).2
  have hrx : r.id = x := by rw [← hpid]; exact hcontra
  rcases hx r hr3 hrx with h | h
  · have : keepSub r = false := by
      unfold keepSub
      rw [h]
    rw [this] at hkeep
    exact Bool.noConfusion hkeep
  · have : keepSub r = false := by
      unfold keepSub
      rw [h]
      decide
    rw [this] at hkeep
    exact Bool.noConfusion hkeep

/-- Example submissions table: one removed-account thread, one by bob. -/
def exSubs : List SubRow := [⟨"s1", some "[deleted]"⟩, ⟨"s2", some "bob"⟩]

/-- Example fetch capability: every thread shows one root comment. -/
def exFetch : String → List CommentNode := fun _ => [exTarget]

/-- C8 witness: with a "[deleted]" thread `s1` and a kept thread `s2`, the
first emitted row does not belong to `s1`. -/
theorem filtered_threads_emit_nothing_witness :
    ((build_comments exFetch 5 10 exSubs).1.get ⟨0, by decide⟩).post_id ≠ "s1" :=
  filtered_threads_emit_nothing exFetch 5 10 exSubs "s1" (by decide) _
    (List.get_mem _ 0 (by decide))

/-- C10: within a thread, rows are emitted in the flattened order with no
comment skipped: the budgeted pass-2 loop produces exactly the records of
the first `maxC - total` nodes (all of them when the budget allows), and in
the scan loop a thread's rows form one contiguous leading block. -/
theorem thread_rows_contiguous_prefix (sid op : String) (aw : List String)
    (maxC total : Nat) (cs : List CommentNode)
    (fetch : String → List CommentNode) (r : SubRow) (rs : List SubRow) :
    emitLoop sid op aw maxC cs total
      = ((cs.take (maxC - total)).map (emitRecord sid op aw),
         total + min (maxC - total) cs.length)
    ∧ ∃ rest, (buildLoop fetch maxC (r :: rs) total).1
        = ((fetch r.id).take (maxC - total)).map
            (emitRecord r.id (opOfRow r) (awardedIds (opOfRow r) (fetch r.id)))
          ++ rest := by
  constructor
  · exact emitLoop_eq sid op aw maxC cs total
  · rw [buildLoop]
    simp only [emitLoop_eq]
    split
    · exact ⟨[], (List.append_nil _).symm⟩
    · exact ⟨_, rfl⟩

/-- C3 counterexample: with a row budget of zero the cap is reached before
any thread, yet the first thread is still scanned (its id appears in the
scanned list) even though it emits no rows — so "once the cap is reached no
further thread is scanned" fails as stated for budget 0. -/
theorem budget_zero_still_scans :
    (build_comments exFetch 5 0 [⟨"s2", some "bob"⟩]).1 = []
    ∧ (build_comments exFetch 5 0 [⟨"s2", some "bob"⟩]).2 = ["s2"]
    ∧ (build_comments exFetch 5 0 [⟨"s2", some "bob"⟩]).2 ≠ [] := by
  decide

/-- C3 amended: for every budget `B = maxC` the builder emits at most `B`
rows, and those rows are exactly the length-`B` prefix, in thread-scan
order, of what an unbounded run over the same kept threads would emit (so
truncation never reorders rows nor changes any emitted `delta_awarded`);
and once the cap is reached, the thread being processed is the last one
scanned: from an exhausted total the loop emits nothing further and stops
after the current thread. -/
theorem truncation_prefix_and_shortcircuit (fetch : String → List CommentNode)
    (nSubs maxC : Nat) (subs : List SubRow) (t : SubRow) (ts : List SubRow)
    (total : Nat) (h : maxC ≤ total) :
    (build_comments fetch nSubs maxC subs).1
      = (unboundedRows fetch ((subs.filter keepSub).take nSubs)).take maxC
    ∧ (build_comments fetch nSubs maxC subs).1.length ≤ maxC
    ∧ buildLoop fetch maxC (t :: ts) total = ([], [t.id]) := by
  have h1 : (build_comments fetch nSubs maxC subs).1
      = (unboundedRows fetch ((subs.filter keepSub).take nSubs)).take maxC := by
    rw [build_comments, buildLoop_rows, Nat.sub_zero]
  refine ⟨h1, ?_, buildLoop_exhausted fetch maxC t ts total h⟩
  rw [h1]
  exact List.length_take_le maxC _

/-- C3 witness: a thread list entered with an exhausted budget scans only
its head thread and emits nothing. -/
theorem truncation_prefix_and_shortcircuit_witness :
    buildLoop exFetch 2 [⟨"s3", some "carol"⟩] 5 = ([], ["s3"]) :=
  (truncation_prefix_and_shortcircuit exFetch 1 2 [⟨"s2", some "bob"⟩]
    ⟨"s3", some "carol"⟩ [] 5 (by decide)).2.2

/-- C9 counterexample: on a run where the thread lister yields zero items
the early-return branch writes the empty dataframe, whose column set is
empty, not the fixed twelve-column schema. -/
theorem submissions_columns_empty_run :
    build_submissions_columns [] ≠ SUBMISSION_COLUMNS := by
  decide

/-- C9 amended: on every run where the thread lister yields at least one
item, the submissions dataset has exactly the fixed columns
`id, title, author, permalink, url, created_utc, score, num_comments,
upvote_ratio, link_flair_text, has_delta_from_op, total_awards_received`,
in that order. -/
theorem submissions_columns_nonempty (items : List SubmissionItem)
    (h : items ≠ []) : build_submissions_columns items = SUBMISSION_COLUMNS := by
  unfold build_submissions_columns
  rw [if_neg h]

/-- Example raw thread item for the submissions builder. -/
def exItem : SubmissionItem :=
  { id := some "s1", title := "CMV: example", author := some "alice",
    permalink := "/r/x", url := some "https://example.org",
    created_utc := none, score := some 10, num_comments := some 2,
    upvote_ratio := none, link_flair_text := some "Δ(s) from OP",
    total_awards_received := some 0 }

/-- C9 witness: a one-item run yields the fixed column schema. -/
theorem submissions_columns_nonempty_witness :
    build_submissions_columns [exItem] = SUBMISSION_COLUMNS :=
  submissions_columns_nonempty [exItem] (by decide)
